import Mathlib

/-!
Verification of `advanced_thermo_storage.py`, a thermochemical storage
simulation for the reaction Ca(OH)2 ↔ CaO + H2O.

The numeric functions of the script are embedded shallowly over the real
numbers: `p_eq` (Van't Hoff equilibrium pressure), `find_T_for_pressure`
(grid scan for a sign change of the log-pressure difference followed by one
secant-style interpolation step), `energy_density_per_kg` and
`round_trip_efficiency`.  Plotting and file output are out of scope.
-/

namespace ThermoStorage

noncomputable section

/-- Universal gas constant `R = 8.314462618` J/(mol·K), from the module header. -/
def R : ℝ := 8.314462618

/-- Reaction enthalpy `delta_H = 104.4e3` J/mol. -/
def delta_H : ℝ := 104.4e3

/-- Reaction entropy `delta_S = 143.8` J/(mol·K). -/
def delta_S : ℝ := 143.8

/-- Molar mass of Ca(OH)2, `molar_mass = 74.09` g/mol. -/
def molar_mass : ℝ := 74.09

/-- The Van't Hoff exponent `-delta_H / (R * T) + delta_S / R` (the value
`ln_p` computed inside `p_eq`). -/
def ln_p (T : ℝ) : ℝ := -delta_H / (R * T) + delta_S / R

/-- `p_eq(T)`: equilibrium pressure (bar) at temperature `T` (K), from the
source: `np.exp(-delta_H / (R * T) + delta_S / R)`. -/
def p_eq (T : ℝ) : ℝ := Real.exp (ln_p T)

/-- The temperature grid `np.linspace(300, 1200, 2000)`: sample `i` (for
`i < 2000`) is `300 + i * (1200 - 300)/1999`. -/
def Tgrid (i : ℕ) : ℝ := 300 + i * ((1200 - 300) / 1999)

/-- `diff[i] = np.log(pgrid[i]) - np.log(p_target)` from the source. -/
def diff (p_target : ℝ) (i : ℕ) : ℝ :=
  Real.log (p_eq (Tgrid i)) - Real.log p_target

/-- Adjacent pair `(i, i+1)` exhibits a sign change:
`np.sign(diff[i]) * np.sign(diff[i+1]) <= 0`. -/
def crossing (p_target : ℝ) (i : ℕ) : Prop :=
  Real.sign (diff p_target i) * Real.sign (diff p_target (i + 1)) ≤ 0

/-- The secant-style interpolant `t1 - f1 * (t2 - t1) / (f2 - f1)` computed
at bracketing pair `(i, i+1)`. -/
def interp (p_target : ℝ) (i : ℕ) : ℝ :=
  Tgrid i - diff p_target i * (Tgrid (i + 1) - Tgrid i) /
    (diff p_target (i + 1) - diff p_target i)

open Classical in
/-- `find_T_for_pressure(p_target)` from the source: take the first index
`i` of the 1999 adjacent pairs whose sign product is `≤ 0` (the result of
`np.where(...)[0][0]`), and return the interpolant there; `None` when no
such index exists. -/
def find_T_for_pressure (p_target : ℝ) : Option ℝ :=
  if h : ∃ i, i < 1999 ∧ crossing p_target i then
    some (interp p_target (Nat.find h))
  else
    none

/-- `energy_density_per_kg()` from the source:
`mol_per_kg = 1000.0 / molar_mass; delta_H * mol_per_kg / 3.6e6` kWh/kg. -/
def energy_density_per_kg : ℝ :=
  let mol_per_kg := 1000.0 / molar_mass
  delta_H * mol_per_kg / 3.6e6

/-- `round_trip_efficiency(mass_kg, Cp, T_charge, T_discharge, T_ref)` from
the source (defaults in the script are 10, 900, 900, 500, 298.15). -/
def round_trip_efficiency (mass_kg Cp T_charge T_discharge T_ref : ℝ) : ℝ :=
  let mol_per_kg := 1000 / molar_mass
  let reaction_energy_J := delta_H * mol_per_kg * mass_kg
  let sensible_in := Cp * mass_kg * (T_charge - T_ref)
  let sensible_out := Cp * mass_kg * (T_discharge - T_ref)
  let energy_in := reaction_energy_J + sensible_in
  let energy_out := reaction_energy_J + sensible_out
  energy_out / energy_in

open Classical in
/-- Scan the indices `start, start+1, …` (`fuel` many of them) from the left
and return the first one satisfying `P`. -/
def firstIdx (P : ℕ → Prop) : ℕ → ℕ → Option ℕ
  | _, 0 => none
  | start, fuel + 1 =>
    if P start then some start else firstIdx P (start + 1) fuel

/-- The Finder algorithm as the spec words it, step 1: sample 2000 evenly
spaced temperatures in [300, 1200] K. -/
def specGrid (i : ℕ) : ℝ := 300 + i * ((1200 - 300) / 1999)

/-- Spec wording, step 2: the signed difference of log equilibrium pressure
from the log of the target at each sample. -/
def specDiff (p_target : ℝ) (i : ℕ) : ℝ :=
  Real.log (p_eq (specGrid i)) - Real.log p_target

/-- Spec wording, step 3: an adjacent sample pair whose difference values
have sign product `≤ 0`. -/
def specCross (p_target : ℝ) (i : ℕ) : Prop :=
  Real.sign (specDiff p_target i) * Real.sign (specDiff p_target (i + 1)) ≤ 0

/-- Spec wording, step 4: the single linear secant-style interpolant
`t1 - f1*(t2 - t1)/(f2 - f1)` between the bracketing pair. -/
def specInterp (p_target : ℝ) (i : ℕ) : ℝ :=
  specGrid i - specDiff p_target i * (specGrid (i + 1) - specGrid i) /
    (specDiff p_target (i + 1) - specDiff p_target i)

/-- The Finder exactly as the spec describes it: scan the 1999 adjacent
pairs from the lowest temperature up, take the FIRST sign change, return
the interpolant there, with no further iteration. -/
def find_T_spec (p_target : ℝ) : Option ℝ :=
  (firstIdx (specCross p_target) 0 1999).map (specInterp p_target)

end

/-! ### Basic facts about the constants and the grid -/

theorem R_pos : (0 : ℝ) < R := by norm_num [R]

theorem delta_H_pos : (0 : ℝ) < delta_H := by norm_num [delta_H]

theorem Tgrid_pos (i : ℕ) : (0 : ℝ) < Tgrid i := by
  have : (0 : ℝ) ≤ (i : ℝ) * ((1200 - 300) / 1999) := by positivity
  unfold Tgrid; linarith

theorem Tgrid_ge (i : ℕ) : (300 : ℝ) ≤ Tgrid i := by
  have : (0 : ℝ) ≤ (i : ℝ) * ((1200 - 300) / 1999) := by positivity
  unfold Tgrid; linarith

theorem Tgrid_zero : Tgrid 0 = 300 := by norm_num [Tgrid]

theorem Tgrid_last : Tgrid 1999 = 1200 := by norm_num [Tgrid]

theorem Tgrid_step (i : ℕ) : Tgrid (i + 1) - Tgrid i = 900 / 1999 := by
  unfold Tgrid; push_cast; ring

theorem Tgrid_lt_succ (i : ℕ) : Tgrid i < Tgrid (i + 1) := by
  have h := Tgrid_step i; linarith

theorem Tgrid_mono : Monotone Tgrid :=
  (strictMono_nat_of_lt_succ Tgrid_lt_succ).monotone

theorem Tgrid_le (i : ℕ) (hi : i ≤ 1999) : Tgrid i ≤ 1200 := by
  have := Tgrid_mono hi
  rwa [Tgrid_last] at this

/-! ### The Van't Hoff exponent is strictly increasing on positive reals -/

theorem ln_p_lt (T₁ T₂ : ℝ) (h1 : 0 < T₁) (h2 : T₁ < T₂) : ln_p T₁ < ln_p T₂ := by
  unfold ln_p
  have hR := R_pos
  have hH := delta_H_pos
  have hRT1 : 0 < R * T₁ := by positivity
  have hRT : R * T₁ < R * T₂ := by
    have : 0 < T₂ := h1.trans h2
    nlinarith
  have := div_lt_div_of_pos_left hH hRT1 hRT
  have hneg : -delta_H / (R * T₁) < -delta_H / (R * T₂) := by
    rw [neg_div, neg_div]; linarith
  linarith

theorem log_p_eq (T : ℝ) : Real.log (p_eq T) = ln_p T := by
  unfold p_eq; exact Real.log_exp _

theorem diff_eq (p : ℝ) (i : ℕ) : diff p i = ln_p (Tgrid i) - Real.log p := by
  unfold diff; rw [log_p_eq]

theorem diff_lt_succ (p : ℝ) (i : ℕ) : diff p i < diff p (i + 1) := by
  rw [diff_eq, diff_eq]
  have := ln_p_lt (Tgrid i) (Tgrid (i + 1)) (Tgrid_pos i) (Tgrid_lt_succ i)
  linarith

theorem diff_strictMono (p : ℝ) : StrictMono (diff p) :=
  strictMono_nat_of_lt_succ (diff_lt_succ p)

/-! ### Sign-change analysis -/

theorem sign_mul_sign_pos_of_pos {x y : ℝ} (hx : 0 < x) (hy : 0 < y) :
    ¬ Real.sign x * Real.sign y ≤ 0 := by
  rw [Real.sign_of_pos hx, Real.sign_of_pos hy]; norm_num

theorem sign_mul_sign_pos_of_neg {x y : ℝ} (hx : x < 0) (hy : y < 0) :
    ¬ Real.sign x * Real.sign y ≤ 0 := by
  rw [Real.sign_of_neg hx, Real.sign_of_neg hy]; norm_num

theorem sign_mul_sign_nonpos {x y : ℝ} (hx : x ≤ 0) (hy : 0 ≤ y) :
    Real.sign x * Real.sign y ≤ 0 := by
  rcases lt_or_eq_of_le hx with hx' | hx'
  · rcases lt_or_eq_of_le hy with hy' | hy'
    · rw [Real.sign_of_neg hx', Real.sign_of_pos hy']; norm_num
    · rw [← hy', Real.sign_zero, mul_zero]
  · rw [hx', Real.sign_zero, zero_mul]

/-- At a sign-change pair, the left difference is nonpositive and the right
one nonnegative (the converse case is impossible because `diff` strictly
increases along the grid). -/
theorem crossing_bracket {p : ℝ} {i : ℕ} (h : crossing p i) :
    diff p i ≤ 0 ∧ 0 ≤ diff p (i + 1) := by
  have hlt := diff_lt_succ p i
  by_contra hcon
  push_neg at hcon
  rcases lt_trichotomy (diff p i) 0 with h1 | h1 | h1
  · have h2 : diff p (i + 1) < 0 := hcon h1.le
    exact sign_mul_sign_pos_of_neg h1 h2 h
  · have h2 : diff p (i + 1) < 0 := hcon h1.le
    rw [h1] at hlt; linarith
  · have h2 : 0 < diff p (i + 1) := h1.trans hlt
    exact sign_mul_sign_pos_of_pos h1 h2 h

/-! ### No sign change when the target pressure is out of range (C2 core) -/

theorem no_crossing_of_low {p : ℝ} (hp : 0 < p) (hlow : p < p_eq 300) (i : ℕ) :
    ¬ crossing p i := by
  have hkey : ∀ j, 0 < diff p j := by
    intro j
    have h0 : Real.log p < ln_p 300 := by
      have := Real.log_lt_log hp hlow
      rwa [log_p_eq] at this
    have hmono : ln_p 300 ≤ ln_p (Tgrid j) := by
      rcases Nat.eq_zero_or_pos j with hj | hj
      · subst hj; rw [Tgrid_zero]
      · have h300 : (300 : ℝ) < Tgrid j := by
          have hstep := Tgrid_step 0
          have h1 : Tgrid 1 ≤ Tgrid j := Tgrid_mono hj
          have h0' : Tgrid 0 = 300 := Tgrid_zero
          linarith
        exact (ln_p_lt 300 (Tgrid j) (by norm_num) h300).le
    rw [diff_eq]
    linarith
  exact sign_mul_sign_pos_of_pos (hkey _) (hkey _)

theorem no_crossing_of_high {p : ℝ} (hp : 0 < p) (hhigh : p_eq 1200 < p)
    {i : ℕ} (hi : i < 1999) : ¬ crossing p i := by
  have hkey : ∀ j, j ≤ 1999 → diff p j < 0 := by
    intro j hj
    have h0 : ln_p 1200 < Real.log p := by
      have hpos : 0 < p_eq 1200 := Real.exp_pos _
      have := Real.log_lt_log hpos hhigh
      rwa [log_p_eq] at this
    have hmono : ln_p (Tgrid j) ≤ ln_p 1200 := by
      rcases lt_or_eq_of_le hj with hj' | hj'
      · have hlt : Tgrid j < 1200 := by
          have := Tgrid_mono (Nat.succ_le_of_lt hj')
          have hstep := Tgrid_step j
          have := Tgrid_le (j + 1) (Nat.succ_le_of_lt hj')
          linarith [Tgrid_lt_succ j]
        exact (ln_p_lt (Tgrid j) 1200 (Tgrid_pos j) hlt).le
      · subst hj'; rw [Tgrid_last]
    rw [diff_eq]
    linarith
  intro hc
  exact sign_mul_sign_pos_of_neg (hkey i (by omega)) (hkey (i + 1) (by omega)) hc

/-! ### Existence of a sign change when the target is inside the range -/

theorem exists_crossing {p : ℝ} (h0 : diff p 0 ≤ 0) (h1 : 0 ≤ diff p 1999) :
    ∃ i, i < 1999 ∧ crossing p i := by
  classical
  have hex : ∃ j, 0 ≤ diff p (j + 1) := ⟨1998, h1⟩
  have hj0 : 0 ≤ diff p (Nat.find hex + 1) := Nat.find_spec hex
  have hj0le : Nat.find hex ≤ 1998 := Nat.find_min' hex h1
  refine ⟨Nat.find hex, by omega, ?_⟩
  have hneg : diff p (Nat.find hex) ≤ 0 := by
    rcases Nat.eq_zero_or_pos (Nat.find hex) with h | h
    · rw [h]; exact h0
    · obtain ⟨k, hk⟩ := Nat.exists_eq_succ_of_ne_zero (Nat.pos_iff_ne_zero.mp h)
      have hmin := Nat.find_min hex (m := k) (by omega)
      push_neg at hmin
      rw [hk]
      exact hmin.le
  exact sign_mul_sign_nonpos hneg hj0

/-! ### Characterisation of `find_T_for_pressure` -/

theorem find_T_eq_none {p : ℝ} (h : ∀ i, i < 1999 → ¬ crossing p i) :
    find_T_for_pressure p = none := by
  unfold find_T_for_pressure
  rw [dif_neg]
  rintro ⟨i, hi, hc⟩
  exact h i hi hc

theorem find_T_eq_some {p : ℝ} {i : ℕ} (hi : i < 1999) (hc : crossing p i)
    (hmin : ∀ j, j < i → ¬ crossing p j) :
    find_T_for_pressure p = some (interp p i) := by
  classical
  have h : ∃ k, k < 1999 ∧ crossing p k := ⟨i, hi, hc⟩
  unfold find_T_for_pressure
  rw [dif_pos h]
  congr 1
  have hfind := Nat.find_spec h
  have hle : Nat.find h ≤ i := Nat.find_min' h ⟨hi, hc⟩
  rcases lt_or_eq_of_le hle with hlt | heq
  · exact absurd hfind.2 (hmin _ hlt)
  · rw [heq]

theorem find_T_isSome {p : ℝ} (h0 : diff p 0 ≤ 0) (h1 : 0 ≤ diff p 1999) :
    ∃ T, find_T_for_pressure p = some T := by
  classical
  obtain ⟨i, hi, hc⟩ := exists_crossing h0 h1
  have h : ∃ k, k < 1999 ∧ crossing p k := ⟨i, hi, hc⟩
  refine ⟨interp p (Nat.find h), ?_⟩
  unfold find_T_for_pressure
  rw [dif_pos h]

/-- A target pressure inside `[p_eq 300, p_eq 1200]` yields a bracketing and
hence a `some` result. -/
theorem find_T_isSome_of_range {p : ℝ} (hp : 0 < p) (hlo : p_eq 300 ≤ p)
    (hhi : p ≤ p_eq 1200) : ∃ T, find_T_for_pressure p = some T := by
  apply find_T_isSome
  · rw [diff_eq, Tgrid_zero]
    have hpos : 0 < p_eq 300 := Real.exp_pos _
    have := Real.log_le_log hpos hlo
    rw [log_p_eq] at this
    linarith
  · rw [diff_eq, Tgrid_last]
    have := Real.log_le_log hp hhi
    rw [log_p_eq] at this
    linarith

/-! ### Helper: the efficiency ratio in closed form -/

theorem rte_formula (mass_kg Cp T_charge T_discharge T_ref : ℝ) :
    round_trip_efficiency mass_kg Cp T_charge T_discharge T_ref =
      (delta_H * (1000 / molar_mass) * mass_kg + Cp * mass_kg * (T_discharge - T_ref)) /
        (delta_H * (1000 / molar_mass) * mass_kg + Cp * mass_kg * (T_charge - T_ref)) := rfl

/-! ### Claims -/

/-- C4: for every temperature `T > 0`, `p_eq T` equals
`exp(-ΔH/(R·T) + ΔS/R)` with the module constants `ΔH = 104.4e3` J/mol,
`ΔS = 143.8` J/(mol·K) and `R = 8.314462618` J/(mol·K). -/
theorem C4_p_eq_formula (T : ℝ) (hT : 0 < T) :
    p_eq T = Real.exp (-(104.4e3) / (8.314462618 * T) + 143.8 / 8.314462618) := rfl

theorem C4_p_eq_formula_witness :
    (0 : ℝ) < 300 ∧
      p_eq 300 = Real.exp (-(104.4e3) / (8.314462618 * 300) + 143.8 / 8.314462618) :=
  ⟨by norm_num, C4_p_eq_formula 300 (by norm_num)⟩

/-- C5: for all `T` in `(0, ∞)` the equilibrium pressure is positive, and
`p_eq` is strictly increasing: `0 < T₁ < T₂` implies `p_eq T₁ < p_eq T₂`. -/
theorem C5_p_eq_pos_strictMono :
    (∀ T : ℝ, 0 < T → 0 < p_eq T) ∧
      ∀ T₁ T₂ : ℝ, 0 < T₁ → T₁ < T₂ → p_eq T₁ < p_eq T₂ := by
  constructor
  · intro T _
    exact Real.exp_pos _
  · intro T₁ T₂ h1 h2
    unfold p_eq
    exact Real.exp_lt_exp.mpr (ln_p_lt T₁ T₂ h1 h2)

theorem C5_p_eq_pos_strictMono_witness :
    (0 : ℝ) < p_eq 300 ∧ p_eq 300 < p_eq 400 :=
  ⟨C5_p_eq_pos_strictMono.1 300 (by norm_num),
   C5_p_eq_pos_strictMono.2 300 400 (by norm_num) (by norm_num)⟩

/-- C2: a target pressure `p > 0` strictly outside `[p_eq 300, p_eq 1200]`
produces no sign change on the grid and `find_T_for_pressure` returns
`none`. -/
theorem C2_out_of_range_none (p : ℝ) (hp : 0 < p)
    (hout : p < p_eq 300 ∨ p_eq 1200 < p) :
    find_T_for_pressure p = none := by
  apply find_T_eq_none
  intro i hi
  rcases hout with h | h
  · exact no_crossing_of_low hp h i
  · exact no_crossing_of_high hp h hi

theorem C2_out_of_range_none_witness :
    (0 : ℝ) < Real.exp (-30) ∧ Real.exp (-30) < p_eq 300 ∧
      find_T_for_pressure (Real.exp (-30)) = none := by
  have h1 : (0 : ℝ) < Real.exp (-30) := Real.exp_pos _
  have h2 : Real.exp (-30) < p_eq 300 := by
    unfold p_eq
    apply Real.exp_lt_exp.mpr
    unfold ln_p delta_H delta_S R
    norm_num
  exact ⟨h1, h2, C2_out_of_range_none _ h1 (Or.inl h2)⟩

/-- C7: `round_trip_efficiency` returns exactly
`(reaction_energy + sensible_out) / (reaction_energy + sensible_in)` with
`reaction_energy = ΔH·(1000/molar_mass)·mass_kg`,
`sensible_in = Cp·mass_kg·(T_charge − T_ref)` and
`sensible_out = Cp·mass_kg·(T_discharge − T_ref)`, for every input. -/
theorem C7_rte_formula (mass_kg Cp T_charge T_discharge T_ref : ℝ) :
    round_trip_efficiency mass_kg Cp T_charge T_discharge T_ref =
      (delta_H * (1000 / molar_mass) * mass_kg + Cp * mass_kg * (T_discharge - T_ref)) /
        (delta_H * (1000 / molar_mass) * mass_kg + Cp * mass_kg * (T_charge - T_ref)) :=
  rte_formula mass_kg Cp T_charge T_discharge T_ref

/-- C6 counterexample: with the default arguments (10, 900, 900, 500,
298.15) the efficiency is below 0.82, far outside the range 0.93–0.94
stated by the spec. -/
theorem C6_default_not_093 :
    round_trip_efficiency 10 900 900 500 298.15 < 0.82 ∧
      ¬ (0.93 ≤ round_trip_efficiency 10 900 900 500 298.15 ∧
          round_trip_efficiency 10 900 900 500 298.15 ≤ 0.94) := by
  have h : round_trip_efficiency 10 900 900 500 298.15 < 0.82 := by
    rw [rte_formula]
    unfold delta_H molar_mass
    norm_num
  exact ⟨h, fun hcon => absurd hcon.1 (by linarith)⟩

/-- C6 (amended): with the default arguments the efficiency lies strictly
between 0.815 and 0.816 (its exact value is ≈ 0.81546). -/
theorem C6_default_value :
    0.815 < round_trip_efficiency 10 900 900 500 298.15 ∧
      round_trip_efficiency 10 900 900 500 298.15 < 0.816 := by
  rw [rte_formula]
  unfold delta_H molar_mass
  constructor <;> norm_num

/-- C8: `energy_density_per_kg` is the constant
`ΔH · (1000/molar_mass) / 3.6e6 = 104.4e3 · (1000/74.09) / 3.6e6`, which
lies strictly between 0.3914 and 0.3915 kWh/kg. -/
theorem C8_energy_density :
    energy_density_per_kg = 104.4e3 * (1000 / 74.09) / 3.6e6 ∧
      0.3914 < energy_density_per_kg ∧ energy_density_per_kg < 0.3915 := by
  refine ⟨?_, ?_, ?_⟩ <;>
    · unfold energy_density_per_kg delta_H molar_mass
      norm_num

/-- C10: in exact real arithmetic the efficiency is independent of the
mass: for `mass_kg > 0` it coincides with the value at `mass_kg = 1`. -/
theorem C10_mass_independent (mass_kg Cp T_charge T_discharge T_ref : ℝ)
    (hm : 0 < mass_kg) :
    round_trip_efficiency mass_kg Cp T_charge T_discharge T_ref =
      round_trip_efficiency 1 Cp T_charge T_discharge T_ref := by
  rw [rte_formula, rte_formula]
  rw [show delta_H * (1000 / molar_mass) * mass_kg +
        Cp * mass_kg * (T_discharge - T_ref) =
      mass_kg * (delta_H * (1000 / molar_mass) * 1 +
        Cp * 1 * (T_discharge - T_ref)) from by ring]
  rw [show delta_H * (1000 / molar_mass) * mass_kg +
        Cp * mass_kg * (T_charge - T_ref) =
      mass_kg * (delta_H * (1000 / molar_mass) * 1 +
        Cp * 1 * (T_charge - T_ref)) from by ring]
  exact mul_div_mul_left _ _ (ne_of_gt hm)

theorem C10_mass_independent_witness :
    round_trip_efficiency 2 900 900 500 298.15 =
      round_trip_efficiency 1 900 900 500 298.15 :=
  C10_mass_independent 2 900 900 500 298.15 (by norm_num)

/-! ### The left-to-right scan finds exactly the least index -/

theorem firstIdx_eq_none (P : ℕ → Prop) (s fuel : ℕ) :
    firstIdx P s fuel = none ↔ ∀ j, s ≤ j → j < s + fuel → ¬ P j := by
  induction fuel generalizing s with
  | zero =>
    constructor
    · intro _ j h1 h2
      exfalso
      omega
    · intro _
      rfl
  | succ n ih =>
    simp only [firstIdx]
    by_cases hP : P s
    · simp only [if_pos hP]
      constructor
      · intro h
        exact absurd h (by simp)
      · intro h
        exact absurd hP (h s le_rfl (by omega))
    · simp only [if_neg hP, ih]
      constructor
      · intro h j hj1 hj2
        rcases eq_or_lt_of_le hj1 with rfl | h'
        · exact hP
        · exact h j h' (by omega)
      · intro h j hj1 hj2
        exact h j (by omega) (by omega)

theorem firstIdx_eq_some (P : ℕ → Prop) (s fuel i : ℕ) :
    firstIdx P s fuel = some i ↔
      s ≤ i ∧ i < s + fuel ∧ P i ∧ ∀ j, s ≤ j → j < i → ¬ P j := by
  induction fuel generalizing s with
  | zero =>
    constructor
    · intro h
      simp [firstIdx] at h
    · rintro ⟨h1, h2, -⟩
      exfalso
      omega
  | succ n ih =>
    simp only [firstIdx]
    by_cases hP : P s
    · simp only [if_pos hP, Option.some_inj]
      constructor
      · rintro rfl
        exact ⟨le_rfl, by omega, hP, fun j h1 h2 => absurd h1 (by omega)⟩
      · rintro ⟨h1, _, _, h4⟩
        by_contra hne
        have hlt : s < i := lt_of_le_of_ne h1 hne
        exact h4 s le_rfl hlt hP
    · simp only [if_neg hP, ih]
      constructor
      · rintro ⟨h1, h2, h3, h4⟩
        refine ⟨by omega, by omega, h3, fun j hj1 hj2 => ?_⟩
        rcases eq_or_lt_of_le hj1 with rfl | h'
        · exact hP
        · exact h4 j h' hj2
      · rintro ⟨h1, h2, h3, h4⟩
        have hsi : s ≠ i := by
          rintro rfl
          exact hP h3
        exact ⟨by omega, by omega, h3, fun j hj1 hj2 => h4 j (by omega) hj2⟩

/-- C1: for every positive target, `find_T_for_pressure` coincides with the
algorithm exactly as the spec words it: 2000 evenly spaced samples on
[300, 1200] K, log-pressure differences, first adjacent sign change
(lowest temperature), one secant-style interpolation, no iteration. -/
theorem C1_finder_follows_spec (p : ℝ) (hp : 0 < p) :
    find_T_for_pressure p = find_T_spec p := by
  classical
  unfold find_T_for_pressure find_T_spec
  by_cases h : ∃ i, i < 1999 ∧ crossing p i
  · rw [dif_pos h]
    have hi : Nat.find h < 1999 := (Nat.find_spec h).1
    have hc : crossing p (Nat.find h) := (Nat.find_spec h).2
    have hfi : firstIdx (specCross p) 0 1999 = some (Nat.find h) := by
      rw [firstIdx_eq_some]
      refine ⟨Nat.zero_le _, by omega, hc, ?_⟩
      intro j _ hj hcj
      exact Nat.find_min h hj ⟨by omega, hcj⟩
    rw [hfi]
    rfl
  · rw [dif_neg h]
    have hfi : firstIdx (specCross p) 0 1999 = none := by
      rw [firstIdx_eq_none]
      intro j _ hj hcj
      exact h ⟨j, by omega, hcj⟩
    rw [hfi]
    rfl

theorem C1_finder_follows_spec_witness :
    (0 : ℝ) < 1 ∧ find_T_for_pressure 1 = find_T_spec 1 :=
  ⟨by norm_num, C1_finder_follows_spec 1 (by norm_num)⟩

/-! ### The secant interpolation step overshoots the root by at most a
second-order term.

With `g T = A - B/T - L` (the shape of `ln_p` minus the log target), a
single secant step from a bracketing pair `(t1, t2)` with `g t1 = f1 ≤ 0 ≤
f2 = g t2` lands at `T* = t1 - f1 (t2 - t1)/(f2 - f1)`, and
`g T* = (-f1)·f2·t2 / (B - f1·t2)`, which is nonnegative and at most
`B (t2 - t1)² / (4 t1² t2)`. -/

theorem secant_aux (B t1 t2 f1 f2 : ℝ) (hB : 0 < B) (ht1 : 0 < t1)
    (ht : t1 < t2) (hf1 : f1 ≤ 0) (hf2 : 0 ≤ f2)
    (hd : (f2 - f1) * (t1 * t2) = B * (t2 - t1)) :
    0 ≤ f1 + B / t1 - B / (t1 - f1 * (t2 - t1) / (f2 - f1)) ∧
      f1 + B / t1 - B / (t1 - f1 * (t2 - t1) / (f2 - f1)) ≤
        B * (t2 - t1) ^ 2 / (4 * t1 ^ 2 * t2) := by
  have ht2 : 0 < t2 := ht1.trans ht
  have hsub : 0 < f2 - f1 := by
    by_contra hcon
    push_neg at hcon
    nlinarith [mul_pos ht1 ht2, mul_pos hB (sub_pos.mpr ht)]
  have hBf : 0 < B - f1 * t2 := by
    nlinarith [mul_nonneg (neg_nonneg.mpr hf1) ht2.le]
  have hD : 0 < t1 * (B - f1 * t2) := mul_pos ht1 hBf
  have hstep : f1 * (t2 - t1) / (f2 - f1) = f1 * (t1 * t2) / B := by
    rw [div_eq_div_iff (ne_of_gt hsub) (ne_of_gt hB)]
    linear_combination (-f1) * hd
  have hTstar : t1 - f1 * (t2 - t1) / (f2 - f1) = t1 * (B - f1 * t2) / B := by
    rw [hstep]
    field_simp
    ring
  have hfrac : B / (t1 * (B - f1 * t2) / B) = B * B / (t1 * (B - f1 * t2)) := by
    rw [div_div_eq_mul_div]
  have e1 : B / t1 * (t1 * (B - f1 * t2)) = B * (B - f1 * t2) := by
    field_simp
    ring
  have e2 : B * B / (t1 * (B - f1 * t2)) * (t1 * (B - f1 * t2)) = B * B :=
    div_mul_cancel₀ _ (ne_of_gt hD)
  have key : (f1 + B / t1 - B * B / (t1 * (B - f1 * t2))) * (t1 * (B - f1 * t2)) =
      -f1 * f2 * (t1 * t2) := by
    rw [sub_mul, add_mul, e1, e2]
    linear_combination f1 * hd
  have hE : f1 + B / t1 - B / (t1 - f1 * (t2 - t1) / (f2 - f1)) =
      -f1 * f2 * (t1 * t2) / (t1 * (B - f1 * t2)) := by
    rw [hTstar, hfrac, eq_div_iff (ne_of_gt hD)]
    exact key
  have hN : 0 ≤ -f1 * f2 * (t1 * t2) :=
    mul_nonneg (mul_nonneg (neg_nonneg.mpr hf1) hf2) (mul_pos ht1 ht2).le
  constructor
  · rw [hE]
    exact div_nonneg hN hD.le
  · rw [hE]
    have hmid : -f1 * f2 * (t1 * t2) / (t1 * (B - f1 * t2)) ≤
        -f1 * f2 * (t1 * t2) / (t1 * B) := by
      refine div_le_div_of_nonneg_left hN (by positivity) ?_
      nlinarith [mul_nonneg (mul_nonneg ht1.le (neg_nonneg.mpr hf1)) ht2.le]
    refine hmid.trans ?_
    rw [div_le_div_iff₀ (by positivity) (by positivity)]
    have hd2 : B * (t2 - t1) * (B * (t2 - t1)) =
        (f2 - f1) * (t1 * t2) * ((f2 - f1) * (t1 * t2)) := by rw [hd]
    nlinarith [hd2, mul_nonneg ht1.le (sq_nonneg ((f1 + f2) * (t1 * t2)))]

/-- The Van't Hoff exponent written as `A - B/T` with `A = ΔS/R` and
`B = ΔH/R`. -/
theorem ln_p_closed (T : ℝ) : ln_p T = delta_S / R - delta_H / R / T := by
  unfold ln_p
  rw [div_div]
  ring

/-- At a sign-change pair the secant step lands on a temperature whose
log-pressure differs from the log target by a value in `[0, 1/10000]`. -/
theorem interp_log_bound {p : ℝ} {i : ℕ} (hc : crossing p i) :
    0 ≤ ln_p (interp p i) - Real.log p ∧
      ln_p (interp p i) - Real.log p ≤ 1 / 10000 := by
  obtain ⟨hf1, hf2⟩ := crossing_bracket hc
  have hB : 0 < delta_H / R := div_pos delta_H_pos R_pos
  have ht1 : 0 < Tgrid i := Tgrid_pos i
  have hlt : Tgrid i < Tgrid (i + 1) := Tgrid_lt_succ i
  have ht2 : 0 < Tgrid (i + 1) := ht1.trans hlt
  have hd : (diff p (i + 1) - diff p i) * (Tgrid i * Tgrid (i + 1)) =
      delta_H / R * (Tgrid (i + 1) - Tgrid i) := by
    rw [diff_eq, diff_eq, ln_p_closed, ln_p_closed]
    have h1 : Tgrid i ≠ 0 := ne_of_gt ht1
    have h2 : Tgrid (i + 1) ≠ 0 := ne_of_gt ht2
    have hR : R ≠ 0 := ne_of_gt R_pos
    field_simp
    ring
  have hmain := secant_aux (delta_H / R) (Tgrid i) (Tgrid (i + 1))
      (diff p i) (diff p (i + 1)) hB ht1 hlt hf1 hf2 hd
  have hEeq : ln_p (interp p i) - Real.log p =
      diff p i + delta_H / R / Tgrid i -
        delta_H / R / (Tgrid i - diff p i * (Tgrid (i + 1) - Tgrid i) /
          (diff p (i + 1) - diff p i)) := by
    rw [show interp p i = Tgrid i - diff p i * (Tgrid (i + 1) - Tgrid i) /
        (diff p (i + 1) - diff p i) from rfl]
    rw [ln_p_closed, diff_eq, ln_p_closed]
    ring
  rw [hEeq]
  refine ⟨hmain.1, hmain.2.trans ?_⟩
  rw [Tgrid_step i]
  have h3 : (300 : ℝ) ≤ Tgrid i := Tgrid_ge i
  have h4 : (300 : ℝ) ≤ Tgrid (i + 1) := Tgrid_ge (i + 1)
  have hnum : (0 : ℝ) ≤ delta_H / R * (900 / 1999) ^ 2 :=
    mul_nonneg hB.le (by positivity)
  have hden : (4 : ℝ) * 300 ^ 2 * 300 ≤ 4 * Tgrid i ^ 2 * Tgrid (i + 1) := by
    nlinarith
  calc delta_H / R * (900 / 1999) ^ 2 / (4 * Tgrid i ^ 2 * Tgrid (i + 1))
      ≤ delta_H / R * (900 / 1999) ^ 2 / (4 * 300 ^ 2 * 300) :=
        div_le_div_of_nonneg_left hnum (by norm_num) hden
    _ ≤ 1 / 10000 := by
        unfold delta_H R
        norm_num

/-- C3: whenever `find_T_for_pressure` returns a temperature `T` for a
positive target pressure `p`, the equilibrium pressure at `T` matches `p`
to within 1% relative error. -/
theorem C3_round_trip (p T : ℝ) (hp : 0 < p)
    (hT : find_T_for_pressure p = some T) :
    |p_eq T - p| ≤ 0.01 * p := by
  classical
  unfold find_T_for_pressure at hT
  by_cases h : ∃ i, i < 1999 ∧ crossing p i
  · rw [dif_pos h] at hT
    have hTeq : T = interp p (Nat.find h) := (Option.some_inj.mp hT).symm
    obtain ⟨hE0, hE1⟩ := interp_log_bound (Nat.find_spec h).2
    set E := ln_p (interp p (Nat.find h)) - Real.log p with hEdef
    have hval : p_eq T = p * Real.exp E := by
      rw [hTeq]
      unfold p_eq
      rw [show ln_p (interp p (Nat.find h)) = Real.log p + E from by rw [hEdef]; ring]
      rw [Real.exp_add, Real.exp_log hp]
    have hexp1 : 1 ≤ Real.exp E := Real.one_le_exp_iff.mpr hE0
    have hub : Real.exp E ≤ 10000 / 9999 := by
      have h2 : (0 : ℝ) < 1 - E := by linarith
      have h3 : 1 - E ≤ (Real.exp E)⁻¹ := by
        rw [← Real.exp_neg]
        linarith [Real.add_one_le_exp (-E)]
      have h4 := inv_anti₀ h2 h3
      rw [inv_inv] at h4
      calc Real.exp E ≤ (1 - E)⁻¹ := h4
        _ ≤ ((9999 : ℝ) / 10000)⁻¹ := inv_anti₀ (by norm_num) (by linarith)
        _ = 10000 / 9999 := by norm_num
    rw [hval]
    rw [abs_of_nonneg (show (0 : ℝ) ≤ p * Real.exp E - p by nlinarith)]
    nlinarith
  · rw [dif_neg h] at hT
    exact absurd hT (by simp)

theorem C3_round_trip_witness :
    ∃ T, find_T_for_pressure 1 = some T ∧ |p_eq T - 1| ≤ 0.01 * 1 := by
  have hlo : p_eq 300 ≤ 1 := by
    unfold p_eq
    rw [Real.exp_le_one_iff]
    unfold ln_p delta_H delta_S R
    norm_num
  have hhi : (1 : ℝ) ≤ p_eq 1200 := by
    unfold p_eq
    rw [Real.one_le_exp_iff]
    unfold ln_p delta_H delta_S R
    norm_num
  obtain ⟨T, hT⟩ := find_T_isSome_of_range one_pos hlo hhi
  exact ⟨T, hT, C3_round_trip 1 T one_pos hT⟩

/-- C9: whenever the Finder returns a temperature for a positive target,
the interpolation denominator is nonzero — the consecutive differences
satisfy `diff i < diff (i+1)` for every pair — and the returned value is
the interpolant at the first crossing, lying between the two bracketing
grid points and hence within `[300, 1200]` K. -/
theorem C9_result_bracketed (p T : ℝ) (hp : 0 < p)
    (hT : find_T_for_pressure p = some T) :
    (∀ i : ℕ, diff p i < diff p (i + 1)) ∧
      ∃ i, i < 1999 ∧ crossing p i ∧ T = interp p i ∧
        Tgrid i ≤ T ∧ T ≤ Tgrid (i + 1) ∧ 300 ≤ T ∧ T ≤ 1200 := by
  classical
  refine ⟨fun i => diff_lt_succ p i, ?_⟩
  unfold find_T_for_pressure at hT
  by_cases h : ∃ i, i < 1999 ∧ crossing p i
  · rw [dif_pos h] at hT
    have hTeq : T = interp p (Nat.find h) := (Option.some_inj.mp hT).symm
    obtain ⟨hi, hc⟩ := Nat.find_spec h
    obtain ⟨hf1, hf2⟩ := crossing_bracket hc
    have hsub : 0 < diff p (Nat.find h + 1) - diff p (Nat.find h) :=
      sub_pos.mpr (diff_lt_succ p _)
    have hdel : 0 < Tgrid (Nat.find h + 1) - Tgrid (Nat.find h) :=
      sub_pos.mpr (Tgrid_lt_succ _)
    have hlow : Tgrid (Nat.find h) ≤ interp p (Nat.find h) := by
      unfold interp
      have hnum : diff p (Nat.find h) * (Tgrid (Nat.find h + 1) - Tgrid (Nat.find h)) ≤ 0 := by
        nlinarith
      have hq : diff p (Nat.find h) * (Tgrid (Nat.find h + 1) - Tgrid (Nat.find h)) /
          (diff p (Nat.find h + 1) - diff p (Nat.find h)) ≤ 0 :=
        div_nonpos_of_nonpos_of_nonneg hnum hsub.le
      linarith
    have hhigh : interp p (Nat.find h) ≤ Tgrid (Nat.find h + 1) := by
      unfold interp
      have hq : -(diff p (Nat.find h) * (Tgrid (Nat.find h + 1) - Tgrid (Nat.find h))) /
          (diff p (Nat.find h + 1) - diff p (Nat.find h)) ≤
            Tgrid (Nat.find h + 1) - Tgrid (Nat.find h) := by
        rw [div_le_iff₀ hsub]
        nlinarith [mul_nonneg hf2 hdel.le]
      rw [neg_div] at hq
      linarith
    refine ⟨Nat.find h, hi, hc, hTeq, ?_, ?_, ?_, ?_⟩
    · rw [hTeq]; exact hlow
    · rw [hTeq]; exact hhigh
    · rw [hTeq]; exact (Tgrid_ge _).trans hlow
    · rw [hTeq]; exact hhigh.trans (Tgrid_le _ (by omega))
  · rw [dif_neg h] at hT
    exact absurd hT (by simp)

theorem C9_result_bracketed_witness :
    ∃ T, find_T_for_pressure (Real.exp 1) = some T ∧ 300 ≤ T ∧ T ≤ 1200 := by
  have hp : (0 : ℝ) < Real.exp 1 := Real.exp_pos _
  have hlo : p_eq 300 ≤ Real.exp 1 := by
    unfold p_eq
    apply Real.exp_le_exp.mpr
    unfold ln_p delta_H delta_S R
    norm_num
  have hhi : Real.exp 1 ≤ p_eq 1200 := by
    unfold p_eq
    apply Real.exp_le_exp.mpr
    unfold ln_p delta_H delta_S R
    norm_num
  obtain ⟨T, hT⟩ := find_T_isSome_of_range hp hlo hhi
  obtain ⟨-, i, -, -, -, -, -, h300, h1200⟩ :=
    C9_result_bracketed (Real.exp 1) T hp hT
  exact ⟨T, hT, h300, h1200⟩

end ThermoStorage
